import Mathlib

/-!
Verification of the matching-and-renaming engine of the auto-rename
application. The definitions below are a shallow embedding of the
TypeScript source (the `ProcessFiles` component variant holding the
canonical matcher: `findBestMatch`, `extractIdentifierFromFilename`,
`generateNewFilename`, the reference-data index built in
`loadReferenceData`, and the per-file preview loop `updatePreviews`).
JavaScript strings are modelled as lists of characters (all inputs
considered lie in the Basic Multilingual Plane, where the UTF-16
`length` used by the source equals the number of characters).
-/

namespace AutoRename

/-- JavaScript strings, as lists of characters. -/
abbrev Str := List Char

/-- Model of `String.prototype.toLowerCase` on ASCII letters and the
Latin-1 accented letters that occur in the reference data handled by the
application (Portuguese names); other characters are left unchanged,
exactly as `toLowerCase` leaves unchanged every character without a
lowercase mapping. -/
def jsToLower (c : Char) : Char :=
  if 'A' ≤ c ∧ c ≤ 'Z' then Char.ofNat (c.toNat + 32)
  else if c = 'Á' then 'á' else if c = 'À' then 'à' else if c = 'Â' then 'â'
  else if c = 'Ã' then 'ã' else if c = 'Ä' then 'ä' else if c = 'Ç' then 'ç'
  else if c = 'É' then 'é' else if c = 'È' then 'è' else if c = 'Ê' then 'ê'
  else if c = 'Í' then 'í' else if c = 'Ó' then 'ó' else if c = 'Ô' then 'ô'
  else if c = 'Õ' then 'õ' else if c = 'Ú' then 'ú' else if c = 'Ü' then 'ü'
  else c

/-- Model of the Unicode NFD decomposition performed by
`String.prototype.normalize("NFD")`, restricted to the Latin accented
letters above: each decomposes into its base letter followed by a
combining mark in U+0300–U+036F; every other character is its own
decomposition. -/
def nfdChar (c : Char) : List Char :=
  if c = 'á' then ['a', '́'] else if c = 'à' then ['a', '̀']
  else if c = 'â' then ['a', '̂'] else if c = 'ã' then ['a', '̃']
  else if c = 'ä' then ['a', '̈'] else if c = 'ç' then ['c', '̧']
  else if c = 'é' then ['e', '́'] else if c = 'è' then ['e', '̀']
  else if c = 'ê' then ['e', '̂'] else if c = 'í' then ['i', '́']
  else if c = 'ó' then ['o', '́'] else if c = 'ô' then ['o', '̂']
  else if c = 'õ' then ['o', '̃'] else if c = 'ú' then ['u', '́']
  else if c = 'ü' then ['u', '̈']
  else if c = 'Á' then ['A', '́'] else if c = 'À' then ['A', '̀']
  else if c = 'Â' then ['A', '̂'] else if c = 'Ã' then ['A', '̃']
  else if c = 'Ç' then ['C', '̧'] else if c = 'É' then ['E', '́']
  else if c = 'Ê' then ['E', '̂'] else if c = 'Í' then ['I', '́']
  else if c = 'Ó' then ['O', '́'] else if c = 'Ô' then ['O', '̂']
  else if c = 'Õ' then ['O', '̃'] else if c = 'Ú' then ['U', '́']
  else [c]

/-- Characters matched by the source's `/[̀-ͯ]/g` (combining
diacritical marks), which the normalization removes after NFD. -/
def isCombiningMark (c : Char) : Bool :=
  decide (0x300 ≤ c.toNat) && decide (c.toNat ≤ 0x36F)

/-- Whitespace for `String.prototype.trim` (the forms occurring in the
data: space, tab, newline, carriage return, vertical tab, form feed). -/
def isJsWhitespace (c : Char) : Bool :=
  c = ' ' || c = '\t' || c = '\n' || c = '\r' || c = '\x0b' || c = '\x0c'

/-- Model of `s.trim()`: strip leading and trailing whitespace. -/
def jsTrim (s : Str) : Str :=
  ((s.dropWhile isJsWhitespace).reverse.dropWhile isJsWhitespace).reverse

/-- The normalization applied by `findBestMatch` to both the candidate
identifier and each reference key:
`s.toLowerCase().normalize("NFD").replace(/[̀-ͯ]/g, "").trim()`. -/
def normalizeJs (s : Str) : Str :=
  jsTrim (((s.map jsToLower).flatMap nfdChar).filter (fun c => !isCombiningMark c))

/-- Model of `String.prototype.startsWith`-like prefix test used to build
substring containment: does `p` occur at the head of `s`? -/
def strAtHead : Str → Str → Bool
  | _, [] => true
  | [], _ :: _ => false
  | c :: s, d :: p => c == d && strAtHead s p

/-- Model of `String.prototype.includes`: does `sub` occur somewhere in
`s`? -/
def strContains : Str → Str → Bool
  | [], sub => sub.isEmpty
  | c :: rest, sub => strAtHead (c :: rest) sub || strContains rest sub

/-- Model of `String.prototype.replace` with a plain-string pattern: the
first occurrence of `pat` in `s` is replaced by `rep`; when `pat` does
not occur, `s` is returned unchanged. -/
def replaceFirst : Str → Str → Str → Str
  | [], pat, rep => if pat.isEmpty then rep else []
  | c :: rest, pat, rep =>
    if strAtHead (c :: rest) pat then rep ++ (c :: rest).drop pat.length
    else c :: replaceFirst rest pat rep

/-- Index of the last '.' in a filename (`filename.lastIndexOf(".")`,
with `none` standing for the source's `-1`). -/
def lastDotIndex : Str → Option Nat
  | [] => none
  | c :: rest =>
    match lastDotIndex rest with
    | some i => some (i + 1)
    | none => if c = '.' then some 0 else none

/-- Model of `filename.substring(0, filename.lastIndexOf("."))`. When the
filename has no '.', `lastIndexOf` is -1 and JavaScript's `substring`
clamps the negative end to 0, yielding the empty string. -/
def jsSubstringToLastDot (s : Str) : Str :=
  match lastDotIndex s with
  | none => []
  | some i => s.take i

/-- Model of `originalFilename.substring(originalFilename.lastIndexOf("."))`
(the extension including its dot). When the filename has no '.',
`substring(-1)` clamps the negative start to 0 and returns the whole
string. -/
def jsExtension (s : Str) : Str :=
  match lastDotIndex s with
  | none => s
  | some i => s.drop i

/-- The source's name-like test on the match column:
`matchColumn.toLowerCase().includes("colaborador") ||
 matchColumn.toLowerCase().includes("nome")`. -/
def isNameLike (matchColumn : Str) : Bool :=
  strContains (matchColumn.map jsToLower) ("colaborador".data) ||
  strContains (matchColumn.map jsToLower) ("nome".data)

/-- The separator class `[_\s-]` of the extractor's patterns. -/
def isSepChar (c : Char) : Bool := c = '_' || isJsWhitespace c || c = '-'

/-- The digit class `\d` of the extractor's patterns. -/
def isDigitChar (c : Char) : Bool := decide ('0' ≤ c) && decide (c ≤ '9')

/-- The class `[A-Za-z0-9]` of the extractor's third pattern. -/
def isAlnumChar (c : Char) : Bool :=
  isDigitChar c || (decide ('A' ≤ c) && decide (c ≤ 'Z')) ||
  (decide ('a' ≤ c) && decide (c ≤ 'z'))

/-- Model of matching `/^(CLASS+)[_\s-]+/` against `s`: the greedy capture
is the maximal leading run of `CLASS` characters, and the match succeeds
exactly when that run is non-empty and the character right after it is a
separator (the class and the separator set are disjoint, so regex
backtracking cannot produce any other capture). -/
def patLeading (cls : Char → Bool) (s : Str) : Option Str :=
  let run := s.takeWhile cls
  if run.isEmpty then none
  else
    match s.drop run.length with
    | c :: _ => if isSepChar c then some run else none
    | [] => none

/-- Model of matching `/[_\s-]+(\d+)$/` against `s`: the capture is the
maximal trailing run of digits, and the match succeeds exactly when that
run is non-empty and the character right before it is a separator. -/
def patTrailingDigits (s : Str) : Option Str :=
  let runRev := s.reverse.takeWhile isDigitChar
  if runRev.isEmpty then none
  else
    match s.reverse.drop runRev.length with
    | c :: _ => if isSepChar c then some runRev.reverse else none
    | [] => none

/-- Embedding of `extractIdentifierFromFilename`: strip the extension;
name-like columns get the whole stem; other columns try the three
identifier patterns in order and fall back to the stem. -/
def extractIdentifierFromFilename (filename matchColumn : Str) : Str :=
  let nameWithoutExtension := jsSubstringToLastDot filename
  if isNameLike matchColumn then nameWithoutExtension
  else
    match patLeading isDigitChar nameWithoutExtension with
    | some m => m
    | none =>
      match patTrailingDigits nameWithoutExtension with
      | some m => m
      | none =>
        match patLeading isAlnumChar nameWithoutExtension with
        | some m => m
        | none => nameWithoutExtension

/-- Levenshtein edit distance, the standard recurrence implemented by the
`fast-levenshtein` library used by the source (`levenshtein.get`). -/
def levenshtein : Str → Str → Nat
  | [], ys => ys.length
  | x :: xs, [] => (x :: xs).length
  | x :: xs, y :: ys =>
    if x = y then levenshtein xs ys
    else 1 + min (levenshtein xs ys)
      (min (levenshtein (x :: xs) ys) (levenshtein xs (y :: ys)))
termination_by xs ys => xs.length + ys.length
decreasing_by all_goals simp_arith

/-- The acceptance test `distance <= Math.min(identifier.length * 0.4, 10)`
rendered exactly over the integers: for an integer distance `d` and
length `len`, the double-precision comparison agrees with
`5 * d ≤ 2 * len ∧ d ≤ 10` (the rounding error of `len * 0.4`, below
`2^-49`, cannot move the product across an integer, and when
`0.4 * len` is an integer the product rounds to it exactly). -/
def leThreshold (len d : Nat) : Bool :=
  decide (5 * d ≤ 2 * len) && decide (d ≤ 10)

/-- The strict comparison `distance < lowestDistance`, where
`lowestDistance` starts at `Infinity` (modelled by `none`). -/
def ltLowest (d : Nat) : Option Nat → Bool
  | none => true
  | some l => decide (d < l)

/-- One iteration of `findBestMatch`'s scan over the reference keys: the
state is the pair `(bestMatch, lowestDistance)`. -/
def scanStep (len : Nat) (nid : Str) (st : Option Str × Option Nat) (key : Str) :
    Option Str × Option Nat :=
  let d := levenshtein nid (normalizeJs key)
  if ltLowest d st.2 && leThreshold len d then (some key, some d) else st

/-- Embedding of `findBestMatch`: exact membership first; then, for
name-like match columns only, the bounded edit-distance scan over all
reference keys; `null` for every other column. -/
def findBestMatch (identifier : Str) (referenceKeys : List Str) (matchColumn : Str) :
    Option Str :=
  if identifier ∈ referenceKeys then some identifier
  else if isNameLike matchColumn then
    (referenceKeys.foldl (scanStep identifier.length (normalizeJs identifier))
      (none, none)).1
  else none

/-- A reference row: a mapping from column name to cell value, as
produced by the spreadsheet parser (`Record<string, string>`). -/
abbrev Row := List (Str × Str)

/-- Property read `row[field]` on a row object: the value of the first
binding of `field`, if any. -/
def rowLookup (row : Row) (field : Str) : Option Str :=
  (row.find? (fun e => decide (e.1 = field))).map (fun e => e.2)

/-- The key extracted from a row while building the reference index:
`row[matchColumn]?.toString().trim()`, with the subsequent truthiness
check (`if (key)`) turning an empty trimmed value into no key at all. -/
def rowKey (matchColumn : Str) (row : Row) : Option Str :=
  match rowLookup row matchColumn with
  | none => none
  | some v => if jsTrim v = [] then none else some (jsTrim v)

/-- The reference index (the source's `refData` object). A plain JS
object is modelled as the list of assignments performed on it; a lookup
returns the value of the last assignment to the key. -/
abbrev RefData := List (Str × Row)

/-- Property read `refData[key]` with overwrite semantics: the most
recent assignment to `key` wins. -/
def objLookup (m : RefData) (k : Str) : Option Row :=
  (m.reverse.find? (fun e => decide (e.1 = k))).map (fun e => e.2)

/-- Embedding of the index construction in `loadReferenceData`:
`jsonData.forEach(row => { const key = row[matchColumn]?.toString().trim();
if (key) refData[key] = row; })`. -/
def buildRefData (rows : List Row) (matchColumn : Str) : RefData :=
  rows.foldl
    (fun m row =>
      match rowKey matchColumn row with
      | none => m
      | some k => m ++ [(k, row)])
    []

/-- The outcome of `generateNewFilename`: the proposed name and the
optional error message. -/
structure RenameResult where
  newName : Str
  error : Option Str
deriving DecidableEq, Repr

/-- The error message `"Dados de referência não encontrados"` returned
when no reference row was resolved for a file (the spec renders it in
English as "reference data not found"). -/
def refNotFoundMsg : Str := "Dados de referência não encontrados".data

/-- The literal template token `"\x7bextensao\x7d"`. -/
def extToken : Str := "{extensao}".data

/-- One step of the scanner behind `format.match(/\{([^}]+)\}/g)`: the
first argument is `none` outside a brace group and `some buf` after an
unmatched open brace with `buf` the content read so far. A group closes
at the first following `'\x7d'` and is reported only when its content is
non-empty, which is exactly the set of matches of the regex. -/
def scanPlaceholders : Option Str → Str → List Str
  | none, [] => []
  | some _, [] => []
  | none, c :: rest =>
    if c = '{' then scanPlaceholders (some []) rest
    else scanPlaceholders none rest
  | some buf, c :: rest =>
    if c = '}' then
      if buf.isEmpty then scanPlaceholders none rest
      else ('{' :: (buf ++ ['}'])) :: scanPlaceholders none rest
    else scanPlaceholders (some (buf ++ [c])) rest

/-- The placeholder occurrences of a template,
`format.match(/\{([^}]+)\}/g) || []`. -/
def placeholdersOf (format : Str) : List Str := scanPlaceholders none format

/-- The field read `fileReferenceData[fieldName] || ""` of the renderer:
an absent field (and an empty one) degrades to the empty string. -/
def getFieldValue (row : Row) (fieldName : Str) : Str :=
  match rowLookup row fieldName with
  | none => []
  | some v => v

/-- The body of the renderer's placeholder loop: extract the field name
(`placeholder.substring(1, placeholder.length - 1)`), skip `extensao`
(already handled), otherwise replace the first occurrence of the
placeholder in the name being built by the row's field value. -/
def applyPlaceholder (row : Row) (acc : Str) (placeholder : Str) : Str :=
  let fieldName := (placeholder.drop 1).dropLast
  if fieldName = "extensao".data then acc
  else replaceFirst acc placeholder (getFieldValue row fieldName)

/-- The filesystem-illegal characters `<>:"/\|?*` are each replaced by
an underscore (`newName.replace(/[<>:"\/\\|?*]/g, "_")`). -/
def sanitizeChar (c : Char) : Char :=
  if c = '<' ∨ c = '>' ∨ c = ':' ∨ c = '"' ∨ c = '/' ∨ c = '\\' ∨
     c = '|' ∨ c = '?' ∨ c = '*' then '_' else c

/-- Embedding of `generateNewFilename`: without reference data the
original name is kept and the error flag is set; otherwise the template
has the extension appended (or its `extensao` token substituted by the
extension minus its leading dot), the placeholders are expanded from the
row, and the result is sanitized. -/
def generateNewFilename (originalFilename : Str) (fileReferenceData : Option Row)
    (format : Str) : RenameResult :=
  match fileReferenceData with
  | none => ⟨originalFilename, some refNotFoundMsg⟩
  | some row =>
    let extension := jsExtension originalFilename
    let step1 :=
      if strContains format extToken then
        replaceFirst format extToken (extension.drop 1)
      else format ++ extension
    let step2 := (placeholdersOf format).foldl (applyPlaceholder row) step1
    ⟨step2.map sanitizeChar, none⟩

/-- One entry of the preview table (the source's `FilePreview`). -/
structure FilePreview where
  originalName : Str
  newName : Str
  error : Option Str
  size : Nat
deriving DecidableEq, Repr

/-- The suffix the preview loop appends to an error message:
`" (Melhor correspondência: " + matchedIdentifier + ")"`. -/
def bestSfx : Str := " (Melhor correspondência: ".data

/-- The row-resolution portion of the preview loop `updatePreviews`:
direct lookup of the extracted identifier in `refData`, then
`findBestMatch` over the reference keys; returns the resolved row (if
any) together with the `matchedIdentifier` reported in error messages. -/
def matchRowFor (refData : RefData) (referenceKeys : List Str) (matchColumn : Str)
    (identifier : Str) : Option Row × Str :=
  match objLookup refData identifier with
  | some row => (some row, identifier)
  | none =>
    match findBestMatch identifier referenceKeys matchColumn with
    | some bm => (objLookup refData bm, bm)
    | none => (none, identifier)

/-- The per-file body of `updatePreviews`: extract, resolve, render, and
assemble one preview entry (a file is a name paired with its size). -/
def processOne (refData : RefData) (referenceKeys : List Str) (matchColumn format : Str)
    (file : Str × Nat) : FilePreview :=
  let pr := matchRowFor refData referenceKeys matchColumn
    (extractIdentifierFromFilename file.1 matchColumn)
  let res := generateNewFilename file.1 pr.1 format
  { originalName := file.1
    newName := res.newName
    error := res.error.map (fun e => e ++ bestSfx ++ pr.2 ++ [')'])
    size := file.2 }

/-- Embedding of the preview loop `updatePreviews`: one preview entry per
input file, in input order. -/
def updatePreviews (refData : RefData) (referenceKeys : List Str)
    (matchColumn format : Str) (files : List (Str × Nat)) : List FilePreview :=
  files.map (processOne refData referenceKeys matchColumn format)

/-- The single reference row of the spec's Scenario B. -/
def rowJoao : Row := [("nome".data, "João Silva".data)]

/-- Occurrence of a list of patterns in a string, in order and without
overlap: `containsAll ps s` holds when `s` can be split as
`b₀ ++ p₁ ++ b₁ ++ p₂ ++ …`. The placeholder scanner always reports its
groups this way, which is the invariant that keeps the appended
extension out of reach of every placeholder replacement. -/
def containsAll : List Str → Str → Prop
  | [], _ => True
  | p :: rest, s => ∃ b t, s = b ++ p ++ t ∧ containsAll rest t

theorem levenshtein_self (xs : Str) : levenshtein xs xs = 0 := by
  induction xs with
  | nil => simp [levenshtein]
  | cons c t ih => simp [levenshtein, ih]

theorem levenshtein_ge_length_sub (xs ys : Str) :
    xs.length - ys.length ≤ levenshtein xs ys ∧
    ys.length - xs.length ≤ levenshtein xs ys := by
  induction xs, ys using levenshtein.induct with
  | case1 ys => simp [levenshtein]
  | case2 x xs => simp [levenshtein]
  | case3 xs y ys ih =>
    simp only [levenshtein, eq_self_iff_true, if_true, List.length_cons]
    omega
  | case4 x xs y ys h ih1 ih2 ih3 =>
    simp only [levenshtein, if_neg h, List.length_cons]
    rcases Nat.le_total (levenshtein xs ys)
      (min (levenshtein (x :: xs) ys) (levenshtein xs (y :: ys))) with hm | hm
    · rw [Nat.min_eq_left hm]; omega
    · rw [Nat.min_eq_right hm]
      rcases Nat.le_total (levenshtein (x :: xs) ys) (levenshtein xs (y :: ys)) with hm2 | hm2
      · rw [Nat.min_eq_left hm2]; simp only [List.length_cons] at ih2; omega
      · rw [Nat.min_eq_right hm2]; simp only [List.length_cons] at ih3; omega

theorem levenshtein_replicate_add (c : Char) (n k : Nat) :
    levenshtein (List.replicate (n + k) c) (List.replicate n c) = k := by
  induction n with
  | zero =>
    cases k with
    | zero => simp [levenshtein]
    | succ m => simp [levenshtein, List.replicate_succ]
  | succ m ih =>
    have h : m + 1 + k = (m + k) + 1 := by omega
    rw [h, List.replicate_succ, List.replicate_succ]
    simp [levenshtein, ih]

theorem scanStep_preserves_some (len : Nat) (nid : Str) (st : Option Str × Option Nat)
    (k : Str) (h : st.1.isSome = true) : ((scanStep len nid st k).1).isSome = true := by
  simp only [scanStep]
  split
  · rfl
  · exact h

theorem scanFold_some (len : Nat) (nid : Str) (l : List Str) :
    ∀ st : Option Str × Option Nat, st.1.isSome = true →
      (((l.foldl (scanStep len nid) st)).1).isSome = true := by
  induction l with
  | nil => intro st h; simpa using h
  | cons k t ih =>
    intro st h
    simp only [List.foldl_cons]
    exact ih _ (scanStep_preserves_some len nid st k h)

theorem scanFold_none_iff (len : Nat) (nid : Str) (l : List Str) :
    ((l.foldl (scanStep len nid) (none, none)).1 = none) ↔
      ∀ k ∈ l, leThreshold len (levenshtein nid (normalizeJs k)) = false := by
  induction l with
  | nil => simp
  | cons k t ih =>
    simp only [List.foldl_cons]
    by_cases hthr : leThreshold len (levenshtein nid (normalizeJs k)) = true
    · have hstep : scanStep len nid (none, none) k =
        (some k, some (levenshtein nid (normalizeJs k))) := by
        simp [scanStep, ltLowest, hthr]
      rw [hstep]
      constructor
      · intro hnone
        have hs := scanFold_some len nid t
          (some k, some (levenshtein nid (normalizeJs k))) (by simp)
        rw [hnone] at hs
        cases hs
      · intro hall
        exact absurd (hall k (by simp)) (by simp [hthr])
    · have hf : leThreshold len (levenshtein nid (normalizeJs k)) = false := by
        cases hb : leThreshold len (levenshtein nid (normalizeJs k)) with
        | false => rfl
        | true => exact absurd hb hthr
      have hstep : scanStep len nid (none, none) k = (none, none) := by
        simp [scanStep, ltLowest, hf]
      rw [hstep, ih]
      constructor
      · intro hall k' hk'
        rcases List.mem_cons.mp hk' with rfl | hmem
        · exact hf
        · exact hall k' hmem
      · intro hall k' hk'
        exact hall k' (List.mem_cons_of_mem k hk')

theorem findBestMatch_eq_scan (identifier : Str) (keys : List Str) (matchColumn : Str)
    (h1 : isNameLike matchColumn = true) (h2 : identifier ∉ keys) :
    findBestMatch identifier keys matchColumn =
      (keys.foldl (scanStep identifier.length (normalizeJs identifier)) (none, none)).1 := by
  simp [findBestMatch, h1, h2]

theorem buildRefData_snoc (rows : List Row) (r : Row) (matchColumn : Str) :
    buildRefData (rows ++ [r]) matchColumn =
      buildRefData rows matchColumn ++
        (match rowKey matchColumn r with
         | none => []
         | some k => [(k, r)]) := by
  simp only [buildRefData, List.foldl_append, List.foldl_cons, List.foldl_nil]
  cases rowKey matchColumn r <;> simp

theorem objLookup_append_single (m : RefData) (k' : Str) (v : Row) (k : Str) :
    objLookup (m ++ [(k', v)]) k =
      if k = k' then some v else objLookup m k := by
  simp only [objLookup, List.reverse_append, List.reverse_singleton, List.singleton_append,
    List.find?_cons]
  by_cases h : k' = k
  · subst h; simp
  · have hne : ¬ k = k' := fun hh => h hh.symm
    simp [h, hne]

theorem objLookup_build (rows : List Row) (matchColumn : Str) (k : Str) :
    objLookup (buildRefData rows matchColumn) k =
      rows.reverse.find? (fun r => decide (rowKey matchColumn r = some k)) := by
  induction rows using List.reverseRecOn with
  | nil => simp [buildRefData, objLookup]
  | append_singleton rows r ih =>
    rw [buildRefData_snoc]
    cases hk : rowKey matchColumn r with
    | none =>
      simp only [List.append_nil, List.reverse_append, List.reverse_singleton,
        List.singleton_append, List.find?_cons]
      rw [ih]
      simp [hk]
    | some k' =>
      rw [objLookup_append_single]
      simp only [List.reverse_append, List.reverse_singleton, List.singleton_append,
        List.find?_cons]
      by_cases h : k = k'
      · subst h; simp [hk]
      · have hne : ¬ k' = k := fun hh => h hh.symm
        simp [hk, h, hne, ih]

theorem getFieldValue_cons_empty (row : Row) (f : Str)
    (h : rowLookup row f = none) (g : Str) :
    getFieldValue ((f, []) :: row) g = getFieldValue row g := by
  by_cases hg : f = g
  · subst hg
    simp only [getFieldValue, h]
    simp [rowLookup, List.find?_cons]
  · simp [getFieldValue, rowLookup, List.find?_cons, hg]

theorem foldl_applyPlaceholder_congr (row row' : Row)
    (h : ∀ g, getFieldValue row g = getFieldValue row' g) :
    ∀ (ps : List Str) (acc : Str),
      ps.foldl (applyPlaceholder row) acc = ps.foldl (applyPlaceholder row') acc := by
  intro ps
  induction ps with
  | nil => intro acc; rfl
  | cons p t ih =>
    intro acc
    simp only [List.foldl_cons]
    have hstep : applyPlaceholder row acc p = applyPlaceholder row' acc p := by
      simp only [applyPlaceholder, h]
    rw [hstep]
    exact ih _

theorem generateNewFilename_some_error (nm : Str) (row : Row) (fmt : Str) :
    (generateNewFilename nm (some row) fmt).error = none := rfl

theorem strAtHead_self : ∀ p : Str, strAtHead p p = true
  | [] => rfl
  | c :: p => by simp [strAtHead, strAtHead_self p]

theorem strAtHead_length_le : ∀ (s p : Str), strAtHead s p = true → p.length ≤ s.length := by
  intro s
  induction s with
  | nil => intro p h; cases p with
    | nil => simp
    | cons d p' => simp [strAtHead] at h
  | cons c s' ih =>
    intro p h
    cases p with
    | nil => simp
    | cons d p' =>
      simp only [strAtHead, Bool.and_eq_true] at h
      have := ih p' h.2
      simp [List.length_cons]
      omega

theorem strAtHead_append_left : ∀ (s p E : Str), strAtHead s p = true →
    strAtHead (s ++ E) p = true := by
  intro s
  induction s with
  | nil => intro p E h; cases p with
    | nil => cases E <;> simp [strAtHead]
    | cons d p' => simp [strAtHead] at h
  | cons c s' ih =>
    intro p E h
    cases p with
    | nil => simp [strAtHead]
    | cons d p' =>
      simp only [strAtHead, Bool.and_eq_true] at h ⊢
      exact ⟨h.1, ih p' E h.2⟩

theorem strAtHead_append_of_le : ∀ (s p E : Str), p.length ≤ s.length →
    strAtHead (s ++ E) p = strAtHead s p := by
  intro s
  induction s with
  | nil => intro p E h; cases p with
    | nil => cases E <;> simp [strAtHead]
    | cons d p' => simp at h
  | cons c s' ih =>
    intro p E h
    cases p with
    | nil => simp [strAtHead]
    | cons d p' =>
      simp only [List.cons_append, strAtHead, List.append_eq]
      rw [ih p' E (by simp at h; omega)]

theorem strAtHead_eq_append : ∀ (s p : Str), strAtHead s p = true →
    s = p ++ s.drop p.length := by
  intro s
  induction s with
  | nil => intro p h; cases p with
    | nil => rfl
    | cons d p' => simp [strAtHead] at h
  | cons c s' ih =>
    intro p h
    cases p with
    | nil => rfl
    | cons d p' =>
      simp only [strAtHead, Bool.and_eq_true, beq_iff_eq] at h
      have := ih p' h.2
      simp only [List.length_cons, List.drop_succ_cons]
      rw [h.1]
      simp only [List.cons_append, List.cons.injEq, true_and]
      exact this

theorem strContains_of_atHead : ∀ (s p : Str), strAtHead s p = true →
    strContains s p = true := by
  intro s p h
  cases s with
  | nil => cases p with
    | nil => rfl
    | cons d p' => simp [strAtHead] at h
  | cons c s' => simp [strContains, h]

theorem strContains_length_le : ∀ (s p : Str), strContains s p = true →
    p.length ≤ s.length := by
  intro s
  induction s with
  | nil => intro p h; simp [strContains, List.isEmpty_iff] at h; simp [h]
  | cons c s' ih =>
    intro p h
    simp only [strContains, Bool.or_eq_true] at h
    rcases h with h | h
    · exact strAtHead_length_le _ _ h
    · have := ih p h
      simp
      omega

theorem strContains_append_self (p t : Str) : strContains (p ++ t) p = true :=
  strContains_of_atHead _ _ (strAtHead_append_left p p t (strAtHead_self p))

theorem strContains_decomp_true : ∀ (b p t : Str), strContains (b ++ p ++ t) p = true := by
  intro b
  induction b with
  | nil => intro p t; simpa using strContains_append_self p t
  | cons c b' ih =>
    intro p t
    simp only [List.cons_append, strContains, Bool.or_eq_true]
    exact Or.inr (ih p t)

theorem replaceFirst_append_right : ∀ (P p : Str), strContains P p = true →
    ∀ (E v : Str), replaceFirst (P ++ E) p v = replaceFirst P p v ++ E := by
  intro P
  induction P with
  | nil =>
    intro p h E v
    have hp : p = [] := by simpa [strContains, List.isEmpty_iff] using h
    subst hp
    cases E with
    | nil => simp [replaceFirst]
    | cons c rest => simp [replaceFirst, strAtHead]
  | cons c P' ih =>
    intro p h E v
    cases hh : strAtHead (c :: P') p with
    | true =>
      have hl := strAtHead_length_le _ _ hh
      have hE : strAtHead (c :: (P' ++ E)) p = true := by
        have := strAtHead_append_left (c :: P') p E hh
        simpa using this
      simp only [List.cons_append, replaceFirst, List.append_eq, hE, hh, if_true]
      rw [show (c :: (P' ++ E)) = (c :: P') ++ E from rfl,
        List.drop_append_eq_append_drop]
      have h0 : p.length - (c :: P').length = 0 := by omega
      rw [h0]
      simp
    | false =>
      have hcont : strContains P' p = true := by
        simp only [strContains, hh, Bool.false_or] at h
        exact h
      have hlen : p.length ≤ P'.length := strContains_length_le _ _ hcont
      have hEhead : strAtHead (c :: (P' ++ E)) p = false := by
        have := strAtHead_append_of_le (c :: P') p E (by simp; omega)
        simp only [List.cons_append] at this
        rw [this]
        exact hh
      simp only [List.cons_append, replaceFirst, List.append_eq, hEhead, hh,
        Bool.false_eq_true, if_false]
      rw [ih p hcont E v]

theorem replaceFirst_keeps_suffix : ∀ (b p t v : Str),
    ∃ Y, replaceFirst (b ++ p ++ t) p v = Y ++ t := by
  intro b
  induction b with
  | nil =>
    intro p t v
    cases p with
    | nil =>
      cases t with
      | nil => exact ⟨v, by simp [replaceFirst]⟩
      | cons c r => exact ⟨v, by simp [replaceFirst, strAtHead]⟩
    | cons d p' =>
      have hh : strAtHead (d :: (p' ++ t)) (d :: p') = true := by
        have := strAtHead_append_left (d :: p') (d :: p') t (strAtHead_self (d :: p'))
        simpa using this
      refine ⟨v, ?_⟩
      simp only [List.nil_append, List.cons_append, replaceFirst, List.append_eq,
        hh, if_true]
      rw [show (d :: (p' ++ t)) = (d :: p') ++ t from rfl, List.drop_left]
  | cons c b' ih =>
    intro p t v
    cases hh : strAtHead (c :: (b' ++ p ++ t)) p with
    | true =>
      have hl := strAtHead_length_le _ _ hh
      refine ⟨v ++ ((c :: b') ++ p).drop p.length, ?_⟩
      simp only [List.cons_append, replaceFirst, List.append_eq, hh, if_true]
      rw [show (c :: (b' ++ p ++ t)) = ((c :: b') ++ p) ++ t by simp,
        List.drop_append_eq_append_drop]
      have h0 : p.length - ((c :: b') ++ p).length = 0 := by simp; omega
      rw [h0]
      simp
    | false =>
      obtain ⟨Y, hY⟩ := ih p t v
      refine ⟨c :: Y, ?_⟩
      simp only [List.cons_append, replaceFirst, List.append_eq, hh,
        Bool.false_eq_true, if_false]
      rw [hY]

theorem replaceFirst_decomp : ∀ (s p : Str), strContains s p = true →
    ∀ v, ∃ b t, s = b ++ p ++ t ∧ replaceFirst s p v = b ++ v ++ t := by
  intro s
  induction s with
  | nil =>
    intro p h v
    have hp : p = [] := by simpa [strContains, List.isEmpty_iff] using h
    subst hp
    exact ⟨[], [], by simp, by simp [replaceFirst]⟩
  | cons c s' ih =>
    intro p h v
    cases hh : strAtHead (c :: s') p with
    | true =>
      refine ⟨[], (c :: s').drop p.length, ?_, ?_⟩
      · simpa using strAtHead_eq_append _ _ hh
      · simp [replaceFirst, hh]
    | false =>
      have hcont : strContains s' p = true := by
        simp only [strContains, hh, Bool.false_or] at h
        exact h
      obtain ⟨b, t, heq, hrep⟩ := ih p hcont v
      refine ⟨c :: b, t, by simp [heq], ?_⟩
      simp [replaceFirst, hh, hrep]

theorem containsAll_prepend : ∀ (ps : List Str) (Y t : Str),
    containsAll ps t → containsAll ps (Y ++ t) := by
  intro ps
  induction ps with
  | nil => intro Y t _; trivial
  | cons p rest _ =>
    intro Y t h
    obtain ⟨b, t', heq, hrest⟩ := h
    exact ⟨Y ++ b, t', by simp [heq], hrest⟩

theorem scan_containsAll : ∀ (s : Str) (buf : Str),
    containsAll (scanPlaceholders none s) s ∧
    containsAll (scanPlaceholders (some buf) s) ('{' :: (buf ++ s)) := by
  intro s
  induction s with
  | nil => intro buf; constructor <;> simp [scanPlaceholders, containsAll]
  | cons c rest ih =>
    intro buf
    constructor
    · by_cases hc : c = '{'
      · subst hc
        simp only [scanPlaceholders, if_pos rfl]
        simpa using (ih []).2
      · simp only [scanPlaceholders, if_neg hc]
        exact containsAll_prepend _ [c] rest (ih buf).1
    · by_cases hc : c = '}'
      · subst hc
        by_cases hbuf : buf = []
        · subst hbuf
          simp only [scanPlaceholders, if_pos rfl, List.isEmpty_nil, if_true]
          exact containsAll_prepend _ ['{', '}'] rest (ih []).1
        · have hne : buf.isEmpty = false := by
            cases buf with
            | nil => exact absurd rfl hbuf
            | cons x xs => rfl
          simp only [scanPlaceholders, if_pos rfl, hne, Bool.false_eq_true, if_false]
          refine ⟨[], rest, ?_, (ih []).1⟩
          simp
      · simp only [scanPlaceholders, if_neg hc]
        have h2 := (ih (buf ++ [c])).2
        simpa using h2

theorem placeholders_containsAll (s : Str) : containsAll (placeholdersOf s) s :=
  (scan_containsAll s []).1

theorem foldl_applyPlaceholder_extension (row : Row) : ∀ (ps : List Str) (P E : Str),
    containsAll ps P →
    ps.foldl (applyPlaceholder row) (P ++ E) = ps.foldl (applyPlaceholder row) P ++ E := by
  intro ps
  induction ps with
  | nil => intro P E _; simp
  | cons p rest ih =>
    intro P E hinv
    obtain ⟨b, t, heq, hrest⟩ := hinv
    simp only [List.foldl_cons]
    by_cases hf : (p.drop 1).dropLast = "extensao".data
    · simp only [applyPlaceholder, hf, if_pos rfl]
      refine ih P E ?_
      rw [heq, show b ++ p ++ t = (b ++ p) ++ t by simp]
      exact containsAll_prepend rest (b ++ p) t hrest
    · have hcont : strContains P p = true := by
        rw [heq]; exact strContains_decomp_true b p t
      simp only [applyPlaceholder, if_neg hf]
      rw [replaceFirst_append_right P p hcont E (getFieldValue row ((p.drop 1).dropLast))]
      refine ih _ E ?_
      rw [heq]
      obtain ⟨Y, hY⟩ :=
        replaceFirst_keeps_suffix b p t (getFieldValue row ((p.drop 1).dropLast))
      rw [hY]
      exact containsAll_prepend rest Y t hrest

theorem find?_reverse_split (p : Row → Bool) : ∀ (rows : List Row) (r : Row),
    rows.reverse.find? p = some r →
    ∃ l1 l2, rows = l1 ++ r :: l2 ∧ p r = true ∧ ∀ x ∈ l2, p x = false := by
  intro rows
  induction rows using List.reverseRecOn with
  | nil => intro r h; simp at h
  | append_singleton rows a ih =>
    intro r h
    rw [List.reverse_append, List.reverse_singleton, List.singleton_append,
      List.find?_cons] at h
    cases ha : p a with
    | true =>
      rw [ha] at h
      injection h with h
      subst h
      exact ⟨rows, [], rfl, ha, by simp⟩
    | false =>
      rw [ha] at h
      obtain ⟨l1, l2, heq, hp, hall⟩ := ih r h
      refine ⟨l1, l2 ++ [a], by rw [heq]; simp, hp, ?_⟩
      intro x hx
      rcases List.mem_append.mp hx with hx | hx
      · exact hall x hx
      · rcases List.mem_singleton.mp hx with rfl
        exact ha

theorem leThreshold_true_iff (len d : Nat) :
    leThreshold len d = true ↔ (5 * d ≤ 2 * len ∧ d ≤ 10) := by
  simp [leThreshold]

theorem leThreshold_false_of_gap (len d dlo : Nat) (hd : dlo ≤ d)
    (hlen : 2 * len < 5 * dlo) : leThreshold len d = false := by
  have hnot : ¬ (5 * d ≤ 2 * len) := by omega
  simp [leThreshold, hnot]

theorem findBestMatch_single_none (identifier k matchColumn : Str)
    (h1 : isNameLike matchColumn = true)
    (h2 : identifier ∉ [k])
    (h3 : leThreshold identifier.length
      (levenshtein (normalizeJs identifier) (normalizeJs k)) = false) :
    findBestMatch identifier [k] matchColumn = none := by
  rw [findBestMatch_eq_scan identifier [k] matchColumn h1 h2]
  apply (scanFold_none_iff _ _ _).mpr
  intro k' hk'
  rcases List.mem_singleton.mp hk' with rfl
  exact h3

theorem matchRowFor_none (refData : RefData) (keys : List Str)
    (matchColumn identifier : Str)
    (h1 : objLookup refData identifier = none)
    (h2 : findBestMatch identifier keys matchColumn = none) :
    matchRowFor refData keys matchColumn identifier = (none, identifier) := by
  simp [matchRowFor, h1, h2]

theorem matchRowFor_direct (refData : RefData) (keys : List Str)
    (matchColumn identifier : Str) (row : Row)
    (h : objLookup refData identifier = some row) :
    matchRowFor refData keys matchColumn identifier = (some row, identifier) := by
  simp [matchRowFor, h]

theorem processOne_no_match (refData : RefData) (keys : List Str)
    (matchColumn fmt f : Str) (sz : Nat)
    (h1 : objLookup refData (extractIdentifierFromFilename f matchColumn) = none)
    (h2 : findBestMatch (extractIdentifierFromFilename f matchColumn) keys matchColumn
      = none) :
    processOne refData keys matchColumn fmt (f, sz) =
      ⟨f, f, some (refNotFoundMsg ++ bestSfx ++
        extractIdentifierFromFilename f matchColumn ++ [')']), sz⟩ := by
  simp [processOne, matchRowFor_none refData keys matchColumn _ h1 h2, generateNewFilename]

theorem processOne_direct (refData : RefData) (keys : List Str)
    (matchColumn fmt f : Str) (sz : Nat) (row : Row)
    (h : objLookup refData (extractIdentifierFromFilename f matchColumn) = some row) :
    processOne refData keys matchColumn fmt (f, sz) =
      ⟨f, (generateNewFilename f (some row) fmt).newName, none, sz⟩ := by
  simp [processOne, matchRowFor_direct refData keys matchColumn _ row h,
    generateNewFilename_some_error]

theorem c2_no_match :
    findBestMatch "Joao_Silva_relatorio".data ["João Silva".data] "nome".data = none := by
  have hx : (normalizeJs "Joao_Silva_relatorio".data).length = 20 := by decide
  have hy : (normalizeJs "João Silva".data).length = 10 := by decide
  have hgap := (levenshtein_ge_length_sub (normalizeJs "Joao_Silva_relatorio".data)
    (normalizeJs "João Silva".data)).1
  rw [hx, hy] at hgap
  apply findBestMatch_single_none _ _ _ (by decide) (by decide)
  apply leThreshold_false_of_gap _ _ 10 (by omega)
  decide

theorem c2_processOne_eq :
    processOne (buildRefData [rowJoao] "nome".data) ["João Silva".data] "nome".data
      "{nome}".data ("Joao_Silva_relatorio.pdf".data, 7) =
    ⟨"Joao_Silva_relatorio.pdf".data, "Joao_Silva_relatorio.pdf".data,
     some (refNotFoundMsg ++ bestSfx ++ "Joao_Silva_relatorio".data ++ [')']), 7⟩ := by
  have hext : extractIdentifierFromFilename "Joao_Silva_relatorio.pdf".data "nome".data =
      "Joao_Silva_relatorio".data := by decide
  have hdl : objLookup (buildRefData [rowJoao] "nome".data)
      (extractIdentifierFromFilename "Joao_Silva_relatorio.pdf".data "nome".data) =
      none := by rw [hext]; decide
  have hfb : findBestMatch
      (extractIdentifierFromFilename "Joao_Silva_relatorio.pdf".data "nome".data)
      ["João Silva".data] "nome".data = none := by rw [hext]; exact c2_no_match
  have h := processOne_no_match (buildRefData [rowJoao] "nome".data)
    ["João Silva".data] "nome".data "{nome}".data "Joao_Silva_relatorio.pdf".data 7
    hdl hfb
  rw [hext] at h
  exact h

/-- C1 (counterexample): the candidate "Jo" is, after normalization, a
substring of the single normalized reference key, so under the claimed
strategy order the containment strategy would match it; yet
`findBestMatch` returns `none` (the code has no containment strategy and
the edit distance 24 exceeds the threshold min(0.4·2, 10)). -/
theorem C1_containment_not_attempted_cex :
    strContains (normalizeJs "Joao Silva Oliveira Santos".data) (normalizeJs "Jo".data)
        = true ∧
    findBestMatch "Jo".data ["Joao Silva Oliveira Santos".data] "nome".data = none := by
  constructor
  · decide
  · have hy : (normalizeJs "Joao Silva Oliveira Santos".data).length = 26 := by decide
    have hx : (normalizeJs "Jo".data).length = 2 := by decide
    have hgap := (levenshtein_ge_length_sub (normalizeJs "Jo".data)
      (normalizeJs "Joao Silva Oliveira Santos".data)).2
    rw [hx, hy] at hgap
    apply findBestMatch_single_none _ _ _ (by decide) (by decide)
    apply leThreshold_false_of_gap _ _ 24 (by omega)
    decide

/-- C1 (amended): for a name-like match column, the Matcher attempts
exactly two strategies — exact membership first, then a single bounded
edit-distance scan over the normalized keys; there is no normalized-exact
lookup and no substring-containment strategy, so a candidate that fails
the exact lookup is matched if and only if some reference key lies within
the edit-distance threshold min(0.4·length, 10). -/
theorem C1_matcher_exact_then_edit_distance (identifier : Str) (keys : List Str)
    (matchColumn : Str)
    (h1 : isNameLike matchColumn = true) (h2 : identifier ∉ keys) :
    ((findBestMatch identifier keys matchColumn).isSome = true) ↔
      ∃ k ∈ keys,
        5 * levenshtein (normalizeJs identifier) (normalizeJs k) ≤ 2 * identifier.length ∧
        levenshtein (normalizeJs identifier) (normalizeJs k) ≤ 10 := by
  rw [findBestMatch_eq_scan identifier keys matchColumn h1 h2]
  have hopt : ((keys.foldl (scanStep identifier.length (normalizeJs identifier))
      (none, none)).1.isSome = true) ↔
      ¬ ((keys.foldl (scanStep identifier.length (normalizeJs identifier))
        (none, none)).1 = none) := by
    cases (keys.foldl (scanStep identifier.length (normalizeJs identifier))
      (none, none)).1 <;> simp
  rw [hopt, scanFold_none_iff]
  constructor
  · intro hno
    push_neg at hno
    obtain ⟨k, hk, hne⟩ := hno
    exact ⟨k, hk, (leThreshold_true_iff _ _).mp (Bool.ne_false_iff.mp hne)⟩
  · rintro ⟨k, hk, hc⟩ hall
    have hfk := hall k hk
    rw [(leThreshold_true_iff _ _).mpr hc] at hfk
    cases hfk

/-- C1 (witness): the amended characterization instantiated at the
name-like column "nome", candidate "ab" and key list ["abc"]. -/
theorem C1_matcher_exact_then_edit_distance_witness :
    isNameLike "nome".data = true ∧
    "ab".data ∉ ["abc".data] ∧
    (((findBestMatch "ab".data ["abc".data] "nome".data).isSome = true) ↔
      ∃ k ∈ ["abc".data],
        5 * levenshtein (normalizeJs "ab".data) (normalizeJs k) ≤ 2 * ("ab".data).length ∧
        levenshtein (normalizeJs "ab".data) (normalizeJs k) ≤ 10) :=
  ⟨by decide, by decide,
    C1_matcher_exact_then_edit_distance "ab".data ["abc".data] "nome".data
      (by decide) (by decide)⟩

/-- C2 (counterexample): in the spec's Scenario B (match column "nome",
single row with nome = "João Silva", file "Joao_Silva_relatorio.pdf") the
preview entry does carry an error, contradicting the claim that the
Matcher resolves the candidate and the preview carries no error. -/
theorem C2_scenarioB_preview_has_error_cex :
    (processOne (buildRefData [rowJoao] "nome".data) ["João Silva".data] "nome".data
      "{nome}".data ("Joao_Silva_relatorio.pdf".data, 7)).error.isSome = true := by
  rw [c2_processOne_eq]
  rfl

/-- C2 (amended): in Scenario B the extractor does return the full stem
"Joao_Silva_relatorio", but the Matcher finds no match — the Levenshtein
distance between the normalized candidate (length 20) and "joao silva" is
at least 10, above the threshold min(0.4·20, 10) = 8 — so the preview
keeps the original name and carries the "reference data not found" error
("Dados de referência não encontrados"), decorated with the best-match
suffix. -/
theorem C2_scenarioB_no_match :
    extractIdentifierFromFilename "Joao_Silva_relatorio.pdf".data "nome".data =
      "Joao_Silva_relatorio".data ∧
    findBestMatch "Joao_Silva_relatorio".data ["João Silva".data] "nome".data = none ∧
    processOne (buildRefData [rowJoao] "nome".data) ["João Silva".data] "nome".data
      "{nome}".data ("Joao_Silva_relatorio.pdf".data, 7) =
    ⟨"Joao_Silva_relatorio.pdf".data, "Joao_Silva_relatorio.pdf".data,
     some (refNotFoundMsg ++ bestSfx ++ "Joao_Silva_relatorio".data ++ [')']), 7⟩ :=
  ⟨by decide, c2_no_match, c2_processOne_eq⟩

/-- C3 (counterexample): with the code-like column "matricula" and the
single reference row whose raw key is "12345_Nome", the stem of
"12345_Nome.pdf" equals that key, yet the extractor's first pattern
reduces the candidate to "12345", the exact lookup fails, and the file
resolves to no row — the claimed round-trip does not hold. -/
theorem C3_roundtrip_stem_pattern_cex :
    jsSubstringToLastDot "12345_Nome.pdf".data = "12345_Nome".data ∧
    rowKey "matricula".data [("matricula".data, "12345_Nome".data)] =
      some "12345_Nome".data ∧
    extractIdentifierFromFilename "12345_Nome.pdf".data "matricula".data = "12345".data ∧
    (processOne (buildRefData [[("matricula".data, "12345_Nome".data)]] "matricula".data)
      ["12345_Nome".data] "matricula".data "{matricula}".data
      ("12345_Nome.pdf".data, 3)).error.isSome = true := by
  decide

/-- C3 (amended): for a code/ID-like (not name-like) match column only the
exact strategy is attempted — `findBestMatch` is exact membership and
nothing else — and the round-trip holds for the extracted candidate:
whenever the candidate extracted from a file equals the raw key of an
indexed row, resolution returns that row and the preview carries no
error. -/
theorem C3_codelike_exact_only (identifier : Str) (keys : List Str)
    (matchColumn fmt f : Str) (sz : Nat) (refData : RefData) (row : Row)
    (h1 : isNameLike matchColumn = false)
    (h2 : objLookup refData (extractIdentifierFromFilename f matchColumn) = some row) :
    (findBestMatch identifier keys matchColumn =
      if identifier ∈ keys then some identifier else none) ∧
    processOne refData keys matchColumn fmt (f, sz) =
      ⟨f, (generateNewFilename f (some row) fmt).newName, none, sz⟩ := by
  constructor
  · by_cases hm : identifier ∈ keys <;> simp [findBestMatch, h1, hm]
  · exact processOne_direct refData keys matchColumn fmt f sz row h2

/-- C3 (witness): the amended round-trip at the code-like column
"matricula", key "12345" and file "12345.pdf" (whose stem no pattern
matches, so the candidate is the full stem). -/
theorem C3_codelike_exact_only_witness :
    isNameLike "matricula".data = false ∧
    objLookup (buildRefData [[("matricula".data, "12345".data)]] "matricula".data)
      (extractIdentifierFromFilename "12345.pdf".data "matricula".data) =
      some [("matricula".data, "12345".data)] ∧
    ((findBestMatch "12345".data ["12345".data] "matricula".data =
      if "12345".data ∈ ["12345".data] then some "12345".data else none) ∧
    processOne (buildRefData [[("matricula".data, "12345".data)]] "matricula".data)
      ["12345".data] "matricula".data "{matricula}".data ("12345.pdf".data, 4) =
      ⟨"12345.pdf".data,
       (generateNewFilename "12345.pdf".data (some [("matricula".data, "12345".data)])
         "{matricula}".data).newName, none, 4⟩) :=
  ⟨by decide, by decide,
    C3_codelike_exact_only "12345".data ["12345".data] "matricula".data
      "{matricula}".data "12345.pdf".data 4
      (buildRefData [[("matricula".data, "12345".data)]] "matricula".data)
      [("matricula".data, "12345".data)] (by decide) (by decide)⟩

/-- C4: for a name-like match column the edit-distance threshold is
min(0.4·length, 10); for a candidate of length 25 the threshold is 10,
so a (sole) reference key at normalized Levenshtein distance exactly 10
is accepted while a key at distance 11 yields no match. -/
theorem C4_threshold_boundary (matchColumn identifier ka kb : Str)
    (h1 : isNameLike matchColumn = true)
    (h2 : identifier.length = 25)
    (ha : levenshtein (normalizeJs identifier) (normalizeJs ka) = 10)
    (hb : levenshtein (normalizeJs identifier) (normalizeJs kb) = 11) :
    ((findBestMatch identifier [ka] matchColumn).isSome = true) ∧
    findBestMatch identifier [kb] matchColumn = none := by
  constructor
  · by_cases hm : identifier ∈ [ka]
    · rcases List.mem_singleton.mp hm with rfl
      simp [findBestMatch]
    · rw [findBestMatch_eq_scan identifier [ka] matchColumn h1 hm]
      cases ho : ([ka].foldl (scanStep identifier.length (normalizeJs identifier))
          (none, none)).1 with
      | none =>
        exfalso
        have hall := (scanFold_none_iff _ _ _).mp ho ka (by simp)
        rw [ha, h2] at hall
        simp [leThreshold] at hall
      | some b => simp [ho]
  · have hne : identifier ∉ [kb] := by
      intro hm
      rcases List.mem_singleton.mp hm with rfl
      rw [levenshtein_self] at hb
      cases hb
    apply findBestMatch_single_none identifier kb matchColumn h1 hne
    rw [hb, h2]
    decide

/-- C4 (witness): the boundary instantiated with a candidate of 25 'a's,
an accepted key of 15 'a's (distance 10) and a rejected key of 14 'a's
(distance 11), under the name-like column "nome". -/
theorem C4_threshold_boundary_witness :
    (List.replicate 25 'a').length = 25 ∧
    isNameLike "nome".data = true ∧
    (((findBestMatch (List.replicate 25 'a') [List.replicate 15 'a'] "nome".data).isSome
        = true) ∧
      findBestMatch (List.replicate 25 'a') [List.replicate 14 'a'] "nome".data = none) := by
  have e25 : normalizeJs (List.replicate 25 'a') = List.replicate 25 'a' := by decide
  have e15 : normalizeJs (List.replicate 15 'a') = List.replicate 15 'a' := by decide
  have e14 : normalizeJs (List.replicate 14 'a') = List.replicate 14 'a' := by decide
  have ha : levenshtein (normalizeJs (List.replicate 25 'a'))
      (normalizeJs (List.replicate 15 'a')) = 10 := by
    rw [e25, e15]
    have h := levenshtein_replicate_add 'a' 15 10
    norm_num at h
    exact h
  have hb : levenshtein (normalizeJs (List.replicate 25 'a'))
      (normalizeJs (List.replicate 14 'a')) = 11 := by
    rw [e25, e14]
    have h := levenshtein_replicate_add 'a' 14 11
    norm_num at h
    exact h
  exact ⟨by decide, by decide,
    C4_threshold_boundary "nome".data (List.replicate 25 'a') (List.replicate 15 'a')
      (List.replicate 14 'a') (by decide) (by decide) ha hb⟩

/-- C5 (counterexample): the extractor applied to the dot-free filename
"README" returns the empty string, not the whole filename, so the claim
that the result is always non-empty (and equals the whole name when no
'.' occurs) fails. -/
theorem C5_dotless_extract_empty_cex :
    extractIdentifierFromFilename "README".data "nome".data = [] ∧
    ("README".data : Str) ≠ [] := by
  decide

/-- C5 (amended): the extractor is total and its stem is the substring
before the last '.'; but when the filename contains no '.' at all,
`lastIndexOf` is -1, `substring(0, -1)` yields the empty stem, and the
extractor returns the empty string for every match column (the name-like
branch returns the stem and every code-like pattern fails on it). -/
theorem C5_dotless_extract_empty (f matchColumn : Str)
    (h : lastDotIndex f = none) :
    extractIdentifierFromFilename f matchColumn = [] := by
  have hstem : jsSubstringToLastDot f = [] := by simp [jsSubstringToLastDot, h]
  cases hc : isNameLike matchColumn <;>
    simp [extractIdentifierFromFilename, hstem, hc, patLeading, patTrailingDigits]

/-- C5 (witness): the dot-free filename "README" with the name-like
column "nome". -/
theorem C5_dotless_extract_empty_witness :
    lastDotIndex "README".data = none ∧
    extractIdentifierFromFilename "README".data "nome".data = [] :=
  ⟨by decide, C5_dotless_extract_empty "README".data "nome".data (by decide)⟩

/-- C6 (counterexample): two rows sharing the trimmed key "A" — the first
row is an input row with a non-empty match-column value, yet the index
lookup under its trimmed value returns the second (later) row, so the
first row is not retrievable: last write wins. -/
theorem C6_duplicate_key_cex :
    rowKey "nome".data [("nome".data, "A".data), ("x".data, "1".data)] = some "A".data ∧
    ([("nome".data, "A".data), ("x".data, "1".data)] : Row) ∈
      [[("nome".data, "A".data), ("x".data, "1".data)],
       [("nome".data, "A".data), ("x".data, "2".data)]] ∧
    objLookup (buildRefData
      [[("nome".data, "A".data), ("x".data, "1".data)],
       [("nome".data, "A".data), ("x".data, "2".data)]] "nome".data) "A".data =
      some [("nome".data, "A".data), ("x".data, "2".data)] ∧
    ([("nome".data, "A".data), ("x".data, "1".data)] : Row) ≠
      [("nome".data, "A".data), ("x".data, "2".data)] := by
  decide

/-- C6 (amended): after building the index, the trimmed value of every
row with a non-empty (after trimming) match-column value is retrievable
from `byExactKey` and the lookup returns the last input row bearing that
trimmed key — the input splits as `l1 ++ row' :: l2` where the lookup
returns `row'` and no row of `l2` bears the key — so the row itself is
returned whenever its trimmed key is unique; and no row whose
match-column value is absent, empty or whitespace-only ever appears in
the index. -/
theorem C6_index_retrievability (rows : List Row) (matchColumn : Str) (row : Row)
    (k : Str) (h1 : row ∈ rows) (h2 : rowKey matchColumn row = some k) :
    (∃ l1 row' l2, rows = l1 ++ row' :: l2 ∧
       objLookup (buildRefData rows matchColumn) k = some row' ∧
       rowKey matchColumn row' = some k ∧
       ∀ r' ∈ l2, rowKey matchColumn r' ≠ some k) ∧
    ((∀ r' ∈ rows, rowKey matchColumn r' = some k → r' = row) →
       objLookup (buildRefData rows matchColumn) k = some row) ∧
    (∀ r0 k0, rowKey matchColumn r0 = none →
       objLookup (buildRefData rows matchColumn) k0 ≠ some r0) := by
  have hsome : (rows.reverse.find?
      (fun r => decide (rowKey matchColumn r = some k))).isSome = true := by
    rw [List.find?_isSome]
    exact ⟨row, List.mem_reverse.mpr h1, by simp [h2]⟩
  obtain ⟨row', hrow'⟩ := Option.isSome_iff_exists.mp hsome
  have hp : rowKey matchColumn row' = some k := by
    have := List.find?_some hrow'
    simpa using this
  have hm : row' ∈ rows := List.mem_reverse.mp (List.mem_of_find?_eq_some hrow')
  obtain ⟨l1, l2, heq, _, hall⟩ := find?_reverse_split _ rows row' hrow'
  refine ⟨⟨l1, row', l2, heq, by rw [objLookup_build]; exact hrow', hp, ?_⟩, ?_, ?_⟩
  · intro r' hr' hk'
    have := hall r' hr'
    rw [hk'] at this
    simp at this
  · intro huniq
    have heqr : row' = row := huniq row' hm hp
    rw [objLookup_build, hrow', heqr]
  · intro r0 k0 h0 hcon
    rw [objLookup_build] at hcon
    have hpc : rowKey matchColumn r0 = some k0 := by
      have := List.find?_some hcon
      simpa using this
    rw [h0] at hpc
    cases hpc

/-- C6 (witness): the amended invariant at the two-row dataset whose rows
share the trimmed key "A": the lookup returns the second row and the
split leaves no key-bearing row after it. -/
theorem C6_index_retrievability_witness :
    ([("nome".data, "A".data), ("x".data, "2".data)] : Row) ∈
      [[("nome".data, "A".data), ("x".data, "1".data)],
       [("nome".data, "A".data), ("x".data, "2".data)]] ∧
    rowKey "nome".data [("nome".data, "A".data), ("x".data, "2".data)] = some "A".data ∧
    ((∃ l1 row' l2,
        [[("nome".data, "A".data), ("x".data, "1".data)],
         [("nome".data, "A".data), ("x".data, "2".data)]] = l1 ++ row' :: l2 ∧
        objLookup (buildRefData
          [[("nome".data, "A".data), ("x".data, "1".data)],
           [("nome".data, "A".data), ("x".data, "2".data)]] "nome".data) "A".data =
          some row' ∧
        rowKey "nome".data row' = some "A".data ∧
        ∀ r' ∈ l2, rowKey "nome".data r' ≠ some "A".data) ∧
    ((∀ r' ∈ [[("nome".data, "A".data), ("x".data, "1".data)],
              [("nome".data, "A".data), ("x".data, "2".data)]],
        rowKey "nome".data r' = some "A".data →
          r' = [("nome".data, "A".data), ("x".data, "2".data)]) →
       objLookup (buildRefData
         [[("nome".data, "A".data), ("x".data, "1".data)],
          [("nome".data, "A".data), ("x".data, "2".data)]] "nome".data) "A".data =
         some [("nome".data, "A".data), ("x".data, "2".data)]) ∧
    (∀ r0 k0, rowKey "nome".data r0 = none →
       objLookup (buildRefData
         [[("nome".data, "A".data), ("x".data, "1".data)],
          [("nome".data, "A".data), ("x".data, "2".data)]] "nome".data) k0 ≠ some r0)) :=
  ⟨by decide, by decide,
    C6_index_retrievability
      [[("nome".data, "A".data), ("x".data, "1".data)],
       [("nome".data, "A".data), ("x".data, "2".data)]] "nome".data
      [("nome".data, "A".data), ("x".data, "2".data)] "A".data
      (by decide) (by decide)⟩

/-- C7: when no reference row is resolved for a file, the renderer
returns the original filename unchanged together with the
"reference data not found" error flag ("Dados de referência não
encontrados"), the preview entry keeps the original name with the
decorated error, and processing never aborts: the preview list always
has exactly one entry per input file. -/
theorem C7_no_match_fallback (refData : RefData) (keys : List Str)
    (matchColumn fmt f : Str) (sz : Nat) (files : List (Str × Nat))
    (h1 : objLookup refData (extractIdentifierFromFilename f matchColumn) = none)
    (h2 : findBestMatch (extractIdentifierFromFilename f matchColumn) keys matchColumn
      = none) :
    generateNewFilename f none fmt = ⟨f, some refNotFoundMsg⟩ ∧
    processOne refData keys matchColumn fmt (f, sz) =
      ⟨f, f, some (refNotFoundMsg ++ bestSfx ++
        extractIdentifierFromFilename f matchColumn ++ [')']), sz⟩ ∧
    (updatePreviews refData keys matchColumn fmt files).length = files.length :=
  ⟨rfl, processOne_no_match refData keys matchColumn fmt f sz h1 h2,
    by simp [updatePreviews]⟩

/-- C7 (witness): the spec's Scenario C — the unmatched file
"unknown_file.pdf" against an empty reference dataset. -/
theorem C7_no_match_fallback_witness :
    objLookup [] (extractIdentifierFromFilename "unknown_file.pdf".data "nome".data)
      = none ∧
    findBestMatch (extractIdentifierFromFilename "unknown_file.pdf".data "nome".data)
      [] "nome".data = none ∧
    (generateNewFilename "unknown_file.pdf".data none "{nome}".data =
      ⟨"unknown_file.pdf".data, some refNotFoundMsg⟩ ∧
    processOne [] [] "nome".data "{nome}".data ("unknown_file.pdf".data, 5) =
      ⟨"unknown_file.pdf".data, "unknown_file.pdf".data,
       some (refNotFoundMsg ++ bestSfx ++
         extractIdentifierFromFilename "unknown_file.pdf".data "nome".data ++ [')']), 5⟩ ∧
    (updatePreviews [] [] "nome".data "{nome}".data
      [("unknown_file.pdf".data, 5)]).length = 1) :=
  ⟨by decide, by decide,
    C7_no_match_fallback [] [] "nome".data "{nome}".data "unknown_file.pdf".data 5
      [("unknown_file.pdf".data, 5)] (by decide) (by decide)⟩

/-- C8: rendering with a matched row never raises an error, and a
placeholder (other than extensao) whose field is absent from the row is
substituted by the empty string: rendering with the absent field behaves
exactly as rendering with that field explicitly bound to the empty
string. -/
theorem C8_missing_field_empty (row : Row) (f nm fmt : Str)
    (h1 : rowLookup row f = none) (h2 : f ≠ "extensao".data) :
    (generateNewFilename nm (some row) fmt).error = none ∧
    generateNewFilename nm (some row) fmt =
      generateNewFilename nm (some ((f, []) :: row)) fmt := by
  refine ⟨rfl, ?_⟩
  simp only [generateNewFilename]
  rw [foldl_applyPlaceholder_congr row ((f, []) :: row)
    (fun g => (getFieldValue_cons_empty row f h1 g).symm)]

/-- C8 (witness): the template contains the placeholder of the absent
field "b"; the render carries no error and coincides with the render
against the row extended by an empty "b". -/
theorem C8_missing_field_empty_witness :
    rowLookup [("a".data, "x".data)] "b".data = none ∧
    ("b".data : Str) ≠ "extensao".data ∧
    ((generateNewFilename "r.pdf".data (some [("a".data, "x".data)]) "{b}-{a}".data).error
        = none ∧
    generateNewFilename "r.pdf".data (some [("a".data, "x".data)]) "{b}-{a}".data =
      generateNewFilename "r.pdf".data
        (some (("b".data, []) :: [("a".data, "x".data)])) "{b}-{a}".data) :=
  ⟨by decide, by decide,
    C8_missing_field_empty [("a".data, "x".data)] "b".data "r.pdf".data "{b}-{a}".data
      (by decide) (by decide)⟩

/-- C9 (counterexample): for the dot-free filename "README",
`substring(lastIndexOf("."))` is the whole filename, so a template
without the extensao token gets "README" appended — not the file's
extension including a dot (there is none) — refuting the claim's rule
for every file. -/
theorem C9_dotless_extension_cex :
    generateNewFilename "README".data (some [("nome".data, "Ana".data)]) "doc".data =
      ⟨"docREADME".data, none⟩ := by
  decide

/-- C9 (amended): when the filename does contain a '.', the claimed rule
holds for every template and matched row: a template without the extensao
token renders with the extension (from the last dot, dot included)
appended verbatim after all placeholder expansion — the placeholder
replacements can never reach the appended suffix — and a template
containing the extensao token has its first occurrence replaced in place
by the extension minus its leading dot, with no extension appended; in
particular the template consisting of the extensao token renders
"report.CSV" to exactly "CSV". When the filename has no '.', the code
instead appends (or substitutes) the whole filename. -/
theorem C9_extension_handling (f fmt : Str) (row : Row) (i : Nat)
    (h1 : lastDotIndex f = some i) :
    (strContains fmt extToken = false →
      (generateNewFilename f (some row) fmt).newName =
        ((placeholdersOf fmt).foldl (applyPlaceholder row) fmt ++ f.drop i).map
          sanitizeChar) ∧
    (strContains fmt extToken = true →
      ∃ b t, fmt = b ++ extToken ++ t ∧
        (generateNewFilename f (some row) fmt).newName =
          ((placeholdersOf fmt).foldl (applyPlaceholder row)
            (b ++ (f.drop i).drop 1 ++ t)).map sanitizeChar) ∧
    generateNewFilename "report.CSV".data (some row) extToken = ⟨"CSV".data, none⟩ := by
  refine ⟨?_, ?_, rfl⟩
  · intro h2
    simp only [generateNewFilename, jsExtension, h1, h2, Bool.false_eq_true, if_false]
    rw [foldl_applyPlaceholder_extension row (placeholdersOf fmt) fmt (f.drop i)
      (placeholders_containsAll fmt)]
  · intro h3
    obtain ⟨b, t, hb, hrep⟩ := replaceFirst_decomp fmt extToken h3 ((f.drop i).drop 1)
    refine ⟨b, t, hb, ?_⟩
    simp only [generateNewFilename, jsExtension, h1, h3, if_true]
    rw [hrep]

/-- C9 (witness): file "a.txt" with the placeholder-bearing template
"\x7bnome\x7d", covering both implications and Scenario D on
"report.CSV". -/
theorem C9_extension_handling_witness :
    lastDotIndex "a.txt".data = some 1 ∧
    ((strContains "{nome}".data extToken = false →
      (generateNewFilename "a.txt".data (some [("nome".data, "Ana".data)])
        "{nome}".data).newName =
        ((placeholdersOf "{nome}".data).foldl
          (applyPlaceholder [("nome".data, "Ana".data)]) "{nome}".data ++
            ("a.txt".data).drop 1).map sanitizeChar) ∧
    (strContains "{nome}".data extToken = true →
      ∃ b t, "{nome}".data = b ++ extToken ++ t ∧
        (generateNewFilename "a.txt".data (some [("nome".data, "Ana".data)])
          "{nome}".data).newName =
          ((placeholdersOf "{nome}".data).foldl
            (applyPlaceholder [("nome".data, "Ana".data)])
            (b ++ (("a.txt".data).drop 1).drop 1 ++ t)).map sanitizeChar) ∧
    generateNewFilename "report.CSV".data (some [("nome".data, "Ana".data)]) extToken =
      ⟨"CSV".data, none⟩) :=
  ⟨by decide,
    C9_extension_handling "a.txt".data "{nome}".data [("nome".data, "Ana".data)] 1
      (by decide)⟩

/-- C10: for a name-like match column, a candidate whose normalized form
equals the normalized form of some reference key always resolves to a
match — distance 0 passes every threshold min(0.4·length, 10) ≥ 0, so
normalized-exact agreement is never lost even without a dedicated
normalized-lookup strategy. -/
theorem C10_normalized_equal_matches (identifier k : Str) (keys : List Str)
    (matchColumn : Str)
    (h1 : isNameLike matchColumn = true) (h2 : k ∈ keys)
    (h3 : normalizeJs k = normalizeJs identifier) :
    (findBestMatch identifier keys matchColumn).isSome = true := by
  by_cases hm : identifier ∈ keys
  · simp [findBestMatch, hm]
  · rw [findBestMatch_eq_scan identifier keys matchColumn h1 hm]
    cases ho : (keys.foldl (scanStep identifier.length (normalizeJs identifier))
        (none, none)).1 with
    | none =>
      exfalso
      have hall := (scanFold_none_iff _ _ _).mp ho k h2
      rw [h3, levenshtein_self] at hall
      simp [leThreshold] at hall
    | some b => simp [ho]

/-- C10 (witness): the candidate "JOAO" and the key "joão" share the
normalized form "joao", so the Matcher matches under the name-like
column "nome". -/
theorem C10_normalized_equal_matches_witness :
    isNameLike "nome".data = true ∧
    "joão".data ∈ ["joão".data] ∧
    normalizeJs "joão".data = normalizeJs "JOAO".data ∧
    (findBestMatch "JOAO".data ["joão".data] "nome".data).isSome = true :=
  ⟨by decide, by decide, by decide,
    C10_normalized_equal_matches "JOAO".data "joão".data ["joão".data] "nome".data
      (by decide) (by decide) (by decide)⟩

end AutoRename
